import Mathlib

/-!
Verification of the transaction-assembly engine of `minimal-ecash-wallet`
(the SendBCH component: fee estimation, UTXO selection, change handling,
transaction building, and broadcast hand-off).

The repository ships only the integration/unit test suite for this component;
the implementation module (`lib/send-bch.js`) is not part of the provided
sources.  The definitions below are therefore modelled from the specification
(spec.md §3, §4.2-§4.4, §7), pinned where possible by the concrete values and
error messages asserted in `test/integration/index.integration.test.js`.
-/

namespace Wallet

/-- Error taxonomy of the wallet core (spec §7).  `invalidAddress` is the
`createSendAllTx` guard ("Address to send must be a bch address"),
`invalidAddressFormat` the AddressNormalizer failure, and the remaining
constructors match the named failures of spec §7. -/
inductive Err where
  | invalidAddressFormat
  | invalidFeeInput
  | insufficientFunds
  | emptyUtxoSet
  | noSigningMaterial
  | invalidAddress
  | backendUnavailable
  | broadcastRejected
deriving DecidableEq, Repr

instance {ε α : Type} [DecidableEq ε] [DecidableEq α] : DecidableEq (Except ε α) :=
  fun a b =>
    match a, b with
    | Except.error e, Except.error f =>
      if h : e = f then isTrue (by rw [h])
      else isFalse (by intro hh; cases hh; exact h rfl)
    | Except.error _, Except.ok _ => isFalse (fun hh => Except.noConfusion hh)
    | Except.ok _, Except.error _ => isFalse (fun hh => Except.noConfusion hh)
    | Except.ok x, Except.ok y =>
      if h : x = y then isTrue (by rw [h])
      else isFalse (by intro hh; cases hh; exact h rfl)

/-- An unspent transaction output (spec §3): identity `(txid, vout)` plus an
integer satoshi value.  Token metadata and script info play no role in the
plain-value paths verified here. -/
structure Utxo where
  txid : String
  vout : Nat
  value : Nat
deriving DecidableEq, Repr

/-- A requested payment output (spec §3): an address string in one of the
supported encodings and a satoshi amount. -/
structure Output where
  address : String
  amountSat : Nat
deriving DecidableEq, Repr

/-- An output of a built transaction.  The amount is an integer so that the
sweep amount `S - F` of `createSendAllTx` is representable as computed. -/
structure TxOut where
  address : String
  amountSat : ℤ
deriving DecidableEq, Repr

/-- A built (to-be-signed) transaction: its inputs and outputs.  Signing and
hex serialization are delegated to the cryptographic collaborator (spec §6)
and modelled by `serializeTx` below. -/
structure Tx where
  txIns : List Utxo
  txOuts : List TxOut
deriving DecidableEq, Repr

/-- Wallet key material (spec §3): one of a mnemonic phrase or a raw
WIF private key, plus the wallet's own cash address (the change target). -/
structure WalletInfo where
  mnemonic : Option String
  privateKey : Option String
  cashAddress : String
deriving DecidableEq, Repr

/-- Result of UTXO selection (spec §3): the chosen inputs and the raw
leftover change in satoshis. -/
structure SelectionResult where
  necessaryUtxos : List Utxo
  change : ℤ
deriving DecidableEq, Repr

/-- Sorting direction of `sortUtxosBySize` (spec §4.3):
ASCENDING (the default) or DESCENDING. -/
inductive SortDirection where
  | ascending
  | descending
deriving DecidableEq, Repr

/-- A dynamically-typed JavaScript argument, as far as the `toAddress`
type guard of `createSendAllTx` needs to distinguish it: a string, or any
non-string value. -/
inductive JsVal where
  | str (s : String)
  | num (n : ℤ)
  | undef
deriving DecidableEq, Repr

/-- Modelled from the spec (§4.2): Bitcoin-family P2PKH transaction sizing,
`10 + 148*inputCount + 34*outputCount` bytes (the bch-js
`BitcoinCash.getByteCount` collaborator, absent from the sources). -/
def getByteCount (inputCount outputCount : Nat) : Nat :=
  10 + 148 * inputCount + 34 * outputCount

/-- Modelled from the spec (§4.2) and the fee reference values pinned by the
unit tests (260/408/442 sats): the raw fee computation sizes the transaction
with one P2PKH output beyond `outputCount` (the reserved change output) and
rounds `size * satsPerByte` to the nearest integer satoshi.  The reference
values force the extra output: `10 + 148*1 + 34*(2+1) = 260`. -/
def feeSats (inputCount outputCount : Nat) (satsPerByte : ℚ) : ℤ :=
  round ((getByteCount inputCount (outputCount + 1) : ℚ) * satsPerByte)

/-- Whether a JavaScript number is a positive integer (spec §4.2 demands
`inputCount`/`outputCount` be positive integers). -/
def isPosInt (q : ℚ) : Prop :=
  0 < q ∧ q.den = 1

instance (q : ℚ) : Decidable (isPosInt q) := by
  unfold isPosInt
  infer_instance

/-- Modelled from the spec (§4.2): `calculateFee(inputCount, outputCount,
satsPerByte)` validates that both counts are positive integers, failing with
`InvalidFeeInput` ("Invalid input. Fee could not be calculated") otherwise,
and returns the sized fee.  Pure: no I/O, represented as a total function. -/
def calculateFee (inputCount outputCount satsPerByte : ℚ) : Except Err ℤ :=
  if isPosInt inputCount ∧ isPosInt outputCount then
    Except.ok (feeSats inputCount.num.toNat outputCount.num.toNat satsPerByte)
  else
    Except.error Err.invalidFeeInput

/-- The ascending comparator of `sortUtxosBySize`: JavaScript
`(a, b) => a.value - b.value`. -/
def utxoLeAsc (a b : Utxo) : Bool :=
  a.value ≤ b.value

/-- The descending comparator of `sortUtxosBySize`: JavaScript
`(a, b) => b.value - a.value`. -/
def utxoLeDesc (a b : Utxo) : Bool :=
  b.value ≤ a.value

/-- Modelled from the spec (§4.3): stable sort of the UTXO list by `value`
in the requested direction.  JavaScript `Array.prototype.sort` is stable, so
the sort is modelled by `List.mergeSort`. -/
def sortUtxosBySize (utxos : List Utxo) (sortingOrder : SortDirection) : List Utxo :=
  match sortingOrder with
  | SortDirection.ascending => utxos.mergeSort utxoLeAsc
  | SortDirection.descending => utxos.mergeSort utxoLeDesc

/-- `sortUtxosBySize` as called with its default direction argument
(`ASCENDING`, spec §4.3). -/
def sortUtxosBySizeDefault (utxos : List Utxo) : List Utxo :=
  sortUtxosBySize utxos SortDirection.ascending

/-- Total satoshi amount requested by a list of outputs
(`outputs.reduce((acc, r) => acc + r.amountSat, 0)`). -/
def outputAmountSum (outputs : List Output) : ℤ :=
  (outputs.map (fun o => (o.amountSat : ℤ))).sum

/-- Total satoshi value held in a list of UTXOs. -/
def utxoValueSum (utxos : List Utxo) : ℤ :=
  (utxos.map (fun u => (u.value : ℤ))).sum

/-- Modelled from the spec (§4.3): the accumulation loop of
`getNecessaryUtxosAndChange`.  `outputCount` is the number of requested
outputs, `target` the total requested satoshis, `k` the number of UTXOs
selected so far and `avail` their accumulated value.  Each candidate UTXO is
pushed, the fee is recomputed at the new input count (with the reserved
change output accounted inside `feeSats`), and the loop stops as soon as the
running total covers `target + fee`.  Returns the UTXOs taken from `l`, the
final selected count and the final accumulated value. -/
def selLoop (outputCount : Nat) (target : ℤ) (satsPerByte : ℚ) (k : Nat) (avail : ℤ) :
    List Utxo → List Utxo × Nat × ℤ
  | [] => ([], k, avail)
  | u :: rest =>
    let k' := k + 1
    let avail' := avail + (u.value : ℤ)
    if target + feeSats k' outputCount satsPerByte ≤ avail' then
      ([u], k', avail')
    else
      let res := selLoop outputCount target satsPerByte k' avail' rest
      (u :: res.1, res.2)

/-- Modelled from the spec (§4.3): `getNecessaryUtxosAndChange(outputs,
utxos, feeRate, options)`.  The candidate list is ordered by the injected
`utxoSortingFn` when given, else by the default ascending-value stable sort;
UTXOs are then accumulated until they cover amount plus fee.  If the whole
candidate set is exhausted without covering the target it fails with
`InsufficientFunds` ("Insufficient balance"), never returning a partial
selection; otherwise the raw leftover change is reported. -/
def getNecessaryUtxosAndChange (outputs : List Output) (utxos : List Utxo)
    (satsPerByte : ℚ) (utxoSortingFn : Option (List Utxo → List Utxo)) :
    Except Err SelectionResult :=
  let sortedUtxos :=
    match utxoSortingFn with
    | some f => f utxos
    | none => sortUtxosBySize utxos SortDirection.ascending
  let satoshisToSend := outputAmountSum outputs
  let res := selLoop outputs.length satoshisToSend satsPerByte 0 0 sortedUtxos
  let fee := feeSats res.2.1 outputs.length satsPerByte
  let change := res.2.2 - satoshisToSend - fee
  if change < 0 then
    Except.error Err.insufficientFunds
  else
    Except.ok (SelectionResult.mk res.1 change)

/-- The fee of a transaction spending the entire candidate UTXO set: the
threshold of spec §8's sufficiency condition `sum(utxos.value) >=
sum(outputs.amountSat) + minFee`. -/
def minFee (outputs : List Output) (utxos : List Utxo) (satsPerByte : ℚ) : ℤ :=
  feeSats utxos.length outputs.length satsPerByte

/-- The three surface address encodings accepted by the library (spec §4.1),
as exercised by the tests: base payment network, alt ledger, token-carrying. -/
def recognizedEncodings : List String :=
  ["bitcoincash:", "ecash:", "etoken:"]

/-- Whether an address string carries one of the recognized encodings (its
character sequence begins with one of the recognized scheme markers). -/
def isSupportedAddress (s : String) : Bool :=
  recognizedEncodings.any (fun p => p.data.isPrefixOf s.data)

/-- Modelled from the spec (§4.1): AddressNormalizer.  Fails with
`InvalidAddressFormat` when the string matches no recognized encoding.  The
canonicalization itself (same hash payload, different surface) is delegated
to the cryptographic collaborator and modelled as the identity on the
surface string. -/
def normalizeAddress (s : String) : Except Err String :=
  if isSupportedAddress s then Except.ok s else Except.error Err.invalidAddressFormat

/-- Modelled from the spec (§4.4, glossary): the protocol-defined dust
threshold, a fixed constant (546 satoshis for BCH/XEC-family chains). -/
def dustThreshold : Nat := 546

/-- The signing key handle resolved by `getKeyPairFromMnemonic`: the actual
derivation is delegated to the cryptographic collaborator, so the model only
records which signing material the key was resolved from. -/
inductive KeyPair where
  | fromMnemonic (phrase : String)
  | fromWif (wif : String)
deriving DecidableEq, Repr

/-- Modelled from the spec (§4.4): resolve the wallet's mnemonic to a derived
key if present, else the raw private key; fail with `NoSigningMaterial`
("Wallet has no mnemonic or private key!") when neither is usable. -/
def getKeyPairFromMnemonic (wallet : WalletInfo) : Except Err KeyPair :=
  match wallet.mnemonic with
  | some phrase => Except.ok (KeyPair.fromMnemonic phrase)
  | none =>
    match wallet.privateKey with
    | some wif => Except.ok (KeyPair.fromWif wif)
    | none => Except.error Err.noSigningMaterial

/-- Normalize every requested output's address (spec §4.4 step 2), turning
the requests into transaction outputs; the first unrecognized address aborts
the build. -/
def normalizeOutputs : List Output → Except Err (List TxOut)
  | [] => Except.ok []
  | o :: rest =>
    match normalizeAddress o.address with
    | Except.error e => Except.error e
    | Except.ok a =>
      match normalizeOutputs rest with
      | Except.error e => Except.error e
      | Except.ok ts => Except.ok (TxOut.mk a (o.amountSat : ℤ) :: ts)

/-- Modelled from the spec (§4.4): `createTransaction(outputs, walletInfo,
utxos, satsPerByte)`.  Fails with `EmptyUtxoSet` ("UTXO list is empty") on an
empty UTXO list; normalizes every output address; runs selection; applies the
dust policy (change at or below `dustThreshold` is absorbed into the fee, a
larger change is paid back to the wallet's own address); signing and
serialization are delegated, so the built transaction is returned in
structural form. -/
def createTransaction (outputs : List Output) (wallet : WalletInfo)
    (utxos : List Utxo) (satsPerByte : ℚ) : Except Err Tx :=
  if utxos.isEmpty then
    Except.error Err.emptyUtxoSet
  else
    match normalizeOutputs outputs with
    | Except.error e => Except.error e
    | Except.ok nouts =>
      match getNecessaryUtxosAndChange outputs utxos satsPerByte none with
      | Except.error e => Except.error e
      | Except.ok sel =>
        match getKeyPairFromMnemonic wallet with
        | Except.error e => Except.error e
        | Except.ok _ =>
          let touts :=
            if (dustThreshold : ℤ) < sel.change then
              nouts ++ [TxOut.mk wallet.cashAddress sel.change]
            else
              nouts
          Except.ok (Tx.mk sel.necessaryUtxos touts)

/-- Modelled from the spec (§4.4): `createSendAllTx(toAddress, walletInfo,
utxos, satsPerByte)`.  The `toAddress` type-and-encoding guard ("Address to
send must be a bch address") comes before any other validation; then an empty
UTXO set fails with `EmptyUtxoSet`; otherwise every supplied UTXO is swept
into a single output paying `sum(utxo.value) - fee(len(utxos), 1, rate)`,
with no change output. -/
def createSendAllTx (toAddress : JsVal) (wallet : WalletInfo)
    (utxos : List Utxo) (satsPerByte : ℚ) : Except Err Tx :=
  match toAddress with
  | JsVal.str s =>
    match normalizeAddress s with
    | Except.error _ => Except.error Err.invalidAddress
    | Except.ok addr =>
      if utxos.isEmpty then
        Except.error Err.emptyUtxoSet
      else
        match getKeyPairFromMnemonic wallet with
        | Except.error e => Except.error e
        | Except.ok _ =>
          let fee := feeSats utxos.length 1 satsPerByte
          Except.ok (Tx.mk utxos [TxOut.mk addr (utxoValueSum utxos - fee)])
  | _ => Except.error Err.invalidAddress

/-- `createSendAllTx` as called with its default fee rate argument
(1 satoshi per byte, spec §4.4). -/
def createSendAllTxDefaultRate (toAddress : JsVal) (wallet : WalletInfo)
    (utxos : List Utxo) : Except Err Tx :=
  createSendAllTx toAddress wallet utxos 1

/-- Modelled from the spec (§6): signing and hex serialization of a built
transaction are delegated to the cryptographic collaborator; the model uses
a canonical printable encoding of the structural transaction. -/
def serializeTx (tx : Tx) : String :=
  reprStr tx

/-- The BackendAdapter facade (spec §4.5) as consumed by the send layer: the
broadcast operation, which either returns a transaction id or fails. -/
structure AdapterRouter where
  sendTx : String → Except Err String

/-- Modelled from the spec (§4.4): `sendBch` builds the transaction with
`createTransaction` and hands the resulting hex to the adapter's broadcast
operation, returning whatever the adapter returns; broadcast failures are
propagated unchanged, with no retry at this layer. -/
def sendBch (ar : AdapterRouter) (outputs : List Output) (wallet : WalletInfo)
    (utxos : List Utxo) (satsPerByte : ℚ) : Except Err String :=
  match createTransaction outputs wallet utxos satsPerByte with
  | Except.error e => Except.error e
  | Except.ok tx => ar.sendTx (serializeTx tx)

/-- Modelled from the spec (§4.4): `sendAllBch` builds the sweep transaction
with `createSendAllTx` and hands the resulting hex to the adapter's broadcast
operation, returning whatever the adapter returns; broadcast failures are
propagated unchanged. -/
def sendAllBch (ar : AdapterRouter) (toAddress : JsVal) (wallet : WalletInfo)
    (utxos : List Utxo) (satsPerByte : ℚ) : Except Err String :=
  match createSendAllTx toAddress wallet utxos satsPerByte with
  | Except.error e => Except.error e
  | Except.ok tx => ar.sendTx (serializeTx tx)

/-- The bch-js cryptographic collaborator, opaque to the core: only its
presence in the constructor config matters to the verified guards. -/
structure BchJs where
  restURL : String
deriving DecidableEq, Repr

/-- The SendBCH transaction-builder component: constructed only with both
collaborators present. -/
structure SendBCH where
  bchjs : BchJs
  ar : AdapterRouter

/-- Modelled from the spec and the constructor unit tests: `new
SendBCH(config)` throws "Must pass instance of bch-js when instantiating
SendBCH." when `config.bchjs` is absent, then "Must pass instance of Adapter
Router." when `config.ar` is absent; otherwise the component is built from
both collaborators. -/
def mkSendBCH (bchjs : Option BchJs) (ar : Option AdapterRouter) :
    Except String SendBCH :=
  match bchjs with
  | none => Except.error "Must pass instance of bch-js when instantiating SendBCH."
  | some b =>
    match ar with
    | none => Except.error "Must pass instance of Adapter Router."
    | some a => Except.ok (SendBCH.mk b a)

/-! ### Concrete fixtures used by the evaluation witnesses -/

/-- A sample requested-output list: one 600-satoshi payment. -/
def outsEx : List Output :=
  [Output.mk "bitcoincash:qp2rmj8heytjrksxm2xrjs0hncnvl08xwgkweawu9h" 600]

/-- A sample UTXO set, already in ascending value order. -/
def utxosEx : List Utxo :=
  [Utxo.mk "aa00" 0 1000, Utxo.mk "bb11" 1 2000]

/-- A second sample UTXO set whose selection leaves above-dust change. -/
def utxosEx2 : List Utxo :=
  [Utxo.mk "cc22" 0 2000]

/-- A sample adapter whose broadcast operation rejects every transaction. -/
def arEx : AdapterRouter :=
  AdapterRouter.mk (fun _ => Except.error Err.broadcastRejected)

/-- A sample wallet holding both a mnemonic and a private key. -/
def walletEx : WalletInfo :=
  WalletInfo.mk (some "van human plastic grain brick hill bus twist sister bachelor near fabric")
    (some "KyGrqLtG5PLf97Lu6RXDMGKg6YbcmRKCemgoiufFXPmvQWyvThvE")
    "bitcoincash:qqxv68xtmlascjyehdy92gjph5xgxa00sq6gmttzrl"

/-! ### Helper lemmas -/

/-- At the default rate of 1 satoshi per byte the fee is exactly the byte
count. -/
theorem feeSats_one (i o : Nat) : feeSats i o 1 = (getByteCount i (o + 1) : ℤ) := by
  simp [feeSats]

/-- Address normalization preserves the number of outputs. -/
theorem normalizeOutputs_length :
    ∀ {outputs : List Output} {ts : List TxOut},
      normalizeOutputs outputs = Except.ok ts → ts.length = outputs.length := by
  intro outputs
  induction outputs with
  | nil =>
    intro ts h
    cases h
    rfl
  | cons o rest ih =>
    intro ts h
    rw [normalizeOutputs] at h
    cases hn : normalizeAddress o.address with
    | error e =>
      rw [hn] at h
      cases h
    | ok a =>
      rw [hn] at h
      cases hr : normalizeOutputs rest with
      | error e =>
        rw [hr] at h
        cases h
      | ok ts' =>
        rw [hr] at h
        cases h
        simp [ih hr]

/-- Sorting an already-ascending UTXO list is the identity. -/
theorem sortUtxosBySize_of_ascending {l : List Utxo} (h : l.Pairwise (utxoLeAsc · ·)) :
    sortUtxosBySize l SortDirection.ascending = l :=
  List.mergeSort_of_sorted h

/-! ### Fee estimation (claims C4, C5) -/

/-- C4 counterexample: the specified sizing formula `10 + 148*inputCount +
34*outputCount` evaluates to 226 at `(1, 2, 1)`, but `calculateFee(1,2,1)`
is pinned to 260 by the repository's own unit test, so the claimed formula
does not describe the fee computation. -/
theorem calculateFee_claimed_formula_false :
    calculateFee 1 2 1 = Except.ok 260 ∧ ((10 + 148 * 1 + 34 * 2) * 1 : ℤ) = 226 ∧
      (260 : ℤ) ≠ 226 := by
  refine ⟨?_, by norm_num, by norm_num⟩
  rw [calculateFee, if_pos (by decide)]
  norm_num [feeSats_one, getByteCount]

/-- C4 (amended): for positive integer counts, `calculateFee` returns
`(10 + 148*inputCount + 34*(outputCount+1)) * feeRatePerByte` rounded to the
nearest integer satoshi (the sizing reserves one extra P2PKH output), and it
fails with `InvalidFeeInput` whenever either count is not a positive
integer; the computation is a pure total function. -/
theorem calculateFee_formula :
    (∀ (i o : ℕ), 0 < i → 0 < o → ∀ r : ℚ,
      calculateFee i o r =
        Except.ok (round (((10 + 148 * i + 34 * (o + 1) : ℕ) : ℚ) * r))) ∧
    (∀ i o r : ℚ, ¬(isPosInt i ∧ isPosInt o) →
      calculateFee i o r = Except.error Err.invalidFeeInput) := by
  constructor
  · intro i o hi ho r
    rw [calculateFee, if_pos]
    · norm_num [feeSats, getByteCount]
    · exact ⟨⟨by exact_mod_cast hi, Rat.den_natCast i⟩,
        ⟨by exact_mod_cast ho, Rat.den_natCast o⟩⟩
  · intro i o r h
    rw [calculateFee, if_neg h]

/-- C4 witness: the amended formula evaluated at `(3, 2, 1)` and the
validation failure at a non-positive input count. -/
theorem calculateFee_formula_witness :
    calculateFee ((3 : ℕ) : ℚ) ((2 : ℕ) : ℚ) 1 =
      Except.ok (round (((10 + 148 * 3 + 34 * (2 + 1) : ℕ) : ℚ) * 1)) ∧
    calculateFee 0 2 1 = Except.error Err.invalidFeeInput :=
  ⟨calculateFee_formula.1 3 2 (by decide) (by decide) 1,
    calculateFee_formula.2 0 2 1 (by decide)⟩

/-- C5: the three fixed reference values of the sizing formula asserted by
the unit tests hold of `calculateFee` at fee rate 1. -/
theorem calculateFee_reference_values :
    calculateFee 1 2 1 = Except.ok 260 ∧ calculateFee 2 2 1 = Except.ok 408 ∧
      calculateFee 2 3 1 = Except.ok 442 := by
  refine ⟨?_, ?_, ?_⟩ <;>
    · rw [calculateFee, if_pos (by decide)]
      norm_num [feeSats_one, getByteCount]

/-! ### Signing-material resolution (claim C7) -/

/-- C7: `getKeyPairFromMnemonic` resolves the signing key from the mnemonic
when one is present (the mnemonic takes precedence), else from the raw
private key, and fails with `NoSigningMaterial` when neither is usable. -/
theorem getKeyPairFromMnemonic_resolution (wallet : WalletInfo) :
    (∀ m, wallet.mnemonic = some m →
      getKeyPairFromMnemonic wallet = Except.ok (KeyPair.fromMnemonic m)) ∧
    (∀ p, wallet.mnemonic = none → wallet.privateKey = some p →
      getKeyPairFromMnemonic wallet = Except.ok (KeyPair.fromWif p)) ∧
    (wallet.mnemonic = none → wallet.privateKey = none →
      getKeyPairFromMnemonic wallet = Except.error Err.noSigningMaterial) := by
  refine ⟨fun m hm => ?_, fun p hm hp => ?_, fun hm hp => ?_⟩ <;>
    simp [getKeyPairFromMnemonic, hm]
  · simp [hp]
  · simp [hp]

/-- C7 witness: the three resolution branches at concrete wallets. -/
theorem getKeyPairFromMnemonic_resolution_witness :
    getKeyPairFromMnemonic walletEx =
      Except.ok (KeyPair.fromMnemonic
        "van human plastic grain brick hill bus twist sister bachelor near fabric") ∧
    getKeyPairFromMnemonic (WalletInfo.mk none (some "Ky") "addr") =
      Except.ok (KeyPair.fromWif "Ky") ∧
    getKeyPairFromMnemonic (WalletInfo.mk none none "addr") =
      Except.error Err.noSigningMaterial :=
  ⟨(getKeyPairFromMnemonic_resolution walletEx).1 _ rfl,
    (getKeyPairFromMnemonic_resolution (WalletInfo.mk none (some "Ky") "addr")).2.1 _ rfl rfl,
    (getKeyPairFromMnemonic_resolution (WalletInfo.mk none none "addr")).2.2 rfl rfl⟩

/-! ### Empty-UTXO and address guards (claim C6) -/

/-- C6: both builders fail with `EmptyUtxoSet` on an empty UTXO list, and in
`createSendAllTx` the address guard runs first, so a non-string `toAddress`
yields `InvalidAddress` even when the UTXO list is also empty. -/
theorem emptyUtxoSet_guards :
    (∀ outputs wallet r,
      createTransaction outputs wallet [] r = Except.error Err.emptyUtxoSet) ∧
    (∀ s wallet r, isSupportedAddress s = true →
      createSendAllTx (JsVal.str s) wallet [] r = Except.error Err.emptyUtxoSet) ∧
    (∀ v wallet utxos r, (∀ s, v ≠ JsVal.str s) →
      createSendAllTx v wallet utxos r = Except.error Err.invalidAddress) := by
  refine ⟨fun outputs wallet r => rfl, fun s wallet r hs => ?_, fun v wallet utxos r hv => ?_⟩
  · simp [createSendAllTx, normalizeAddress, hs]
  · cases v with
    | str s => exact absurd rfl (hv s)
    | num n => rfl
    | undef => rfl

/-- C6 witness: both empty-set failures and the guard-ordering observation
(`createSendAllTx(1, wallet, [])` fails with the address error, not the
empty-set error) at concrete inputs. -/
theorem emptyUtxoSet_guards_witness :
    createTransaction outsEx walletEx [] 1 = Except.error Err.emptyUtxoSet ∧
    createSendAllTx (JsVal.str "bitcoincash:qp2rmj8heytjrksxm2xrjs0hncnvl08xwgkweawu9h")
      walletEx [] 1 = Except.error Err.emptyUtxoSet ∧
    createSendAllTx (JsVal.num 1) walletEx [] 1 = Except.error Err.invalidAddress :=
  ⟨emptyUtxoSet_guards.1 outsEx walletEx 1,
    emptyUtxoSet_guards.2.1 _ walletEx 1 (by decide),
    emptyUtxoSet_guards.2.2 (JsVal.num 1) walletEx [] 1 (fun s h => JsVal.noConfusion h)⟩

/-- The ascending comparator is transitive. -/
theorem utxoLeAsc_trans : ∀ a b c : Utxo, utxoLeAsc a b → utxoLeAsc b c → utxoLeAsc a c := by
  intro a b c hab hbc
  simp only [utxoLeAsc, decide_eq_true_eq] at *
  omega

/-- The ascending comparator is total. -/
theorem utxoLeAsc_total : ∀ a b : Utxo, utxoLeAsc a b || utxoLeAsc b a := by
  intro a b
  simp only [utxoLeAsc]
  by_cases h : a.value ≤ b.value
  · simp [h]
  · simp [h]
    omega

/-- The descending comparator is transitive. -/
theorem utxoLeDesc_trans : ∀ a b c : Utxo, utxoLeDesc a b → utxoLeDesc b c → utxoLeDesc a c := by
  intro a b c hab hbc
  simp only [utxoLeDesc, decide_eq_true_eq] at *
  omega

/-- The descending comparator is total. -/
theorem utxoLeDesc_total : ∀ a b : Utxo, utxoLeDesc a b || utxoLeDesc b a := by
  intro a b
  simp only [utxoLeDesc]
  by_cases h : b.value ≤ a.value
  · simp [h]
  · simp [h]
    omega

/-! ### UTXO selection (claim C1) -/

/-- If the loop breaks at input count `k1` on a UTXO of value `V` (so that
`k1` inputs of value at most `V` cover the target plus the fee at `k1`
inputs), then at a rate of at least one satoshi per byte each of the `m`
remaining inputs — each worth at least `V` — covers the fee increase it
causes, because a breaking input is necessarily worth more than the 148
bytes it adds. -/
theorem feeSats_gap (o : ℕ) (r : ℚ) (hr : 1 ≤ r) (k1 : ℕ) (hk1 : 1 ≤ k1) (m : ℕ)
    (V t : ℤ) (ht : 0 ≤ t) (hbreak : t + feeSats k1 o r ≤ (k1 : ℤ) * V) :
    feeSats (k1 + m) o r ≤ feeSats k1 o r + m * V := by
  have hr0 : (0 : ℚ) ≤ r := le_trans zero_le_one hr
  have hub : (feeSats (k1 + m) o r : ℚ) ≤ (getByteCount (k1 + m) (o + 1) : ℚ) * r + 1 / 2 :=
    round_le_add_half _
  have hlb : (getByteCount k1 (o + 1) : ℚ) * r - 1 / 2 < (feeSats k1 o r : ℚ) :=
    sub_half_lt_round _
  have hBsplit : (getByteCount (k1 + m) (o + 1) : ℚ) =
      (getByteCount k1 (o + 1) : ℚ) + 148 * m := by
    simp only [getByteCount]
    push_cast
    ring
  have hV : 148 * r < (V : ℚ) := by
    have hB : (148 * k1 + 44 : ℚ) ≤ (getByteCount k1 (o + 1) : ℚ) := by
      simp only [getByteCount]
      push_cast
      have ho : (0 : ℚ) ≤ (o : ℚ) := Nat.cast_nonneg o
      nlinarith [ho]
    have hBr : (148 * k1 + 44 : ℚ) * r ≤ (getByteCount k1 (o + 1) : ℚ) * r :=
      mul_le_mul_of_nonneg_right hB hr0
    have hcast : ((t + feeSats k1 o r : ℤ) : ℚ) ≤ ((k1 : ℤ) * V : ℚ) := by
      exact_mod_cast hbreak
    push_cast at hcast
    have htq : (0 : ℚ) ≤ (t : ℚ) := by exact_mod_cast ht
    have hk1q : (0 : ℚ) < (k1 : ℚ) := by
      have h0 : (0 : ℕ) < k1 := hk1
      exact_mod_cast h0
    have hmain : (k1 : ℚ) * (148 * r) < (k1 : ℚ) * (V : ℚ) := by
      have h44 : (1 : ℚ) / 2 < 44 * r := by linarith
      nlinarith [hlb, hBr, hcast, htq]
    exact lt_of_mul_lt_mul_left hmain (le_of_lt hk1q)
  have hVfloor : (⌊(148 : ℚ) * r⌋ + 1 : ℤ) ≤ V := by
    have hf : ⌊(148 : ℚ) * r⌋ < V := Int.floor_lt.mpr hV
    omega
  have hstep : (148 : ℚ) * m * r ≤ (m : ℚ) * ((⌊(148 : ℚ) * r⌋ + 1 : ℤ) : ℚ) := by
    have h1 : (148 : ℚ) * r < ((⌊(148 : ℚ) * r⌋ + 1 : ℤ) : ℚ) := by
      push_cast
      exact Int.lt_floor_add_one _
    have h2 : (0 : ℚ) ≤ (m : ℚ) := by positivity
    calc (148 : ℚ) * m * r = (m : ℚ) * (148 * r) := by ring
      _ ≤ (m : ℚ) * ((⌊(148 : ℚ) * r⌋ + 1 : ℤ) : ℚ) :=
        mul_le_mul_of_nonneg_left (le_of_lt h1) h2
  have hdiff : (feeSats (k1 + m) o r : ℚ) <
      (feeSats k1 o r : ℚ) + (m : ℚ) * ((⌊(148 : ℚ) * r⌋ + 1 : ℤ) : ℚ) + 1 := by
    rw [hBsplit] at hub
    nlinarith [hub, hlb, hstep]
  have hdiffZ : feeSats (k1 + m) o r ≤ feeSats k1 o r + m * (⌊(148 : ℚ) * r⌋ + 1) := by
    have hq : ((feeSats (k1 + m) o r : ℤ) : ℚ) <
        ((feeSats k1 o r + m * (⌊(148 : ℚ) * r⌋ + 1) + 1 : ℤ) : ℚ) := by
      push_cast
      push_cast at hdiff
      linarith
    have hz : feeSats (k1 + m) o r < feeSats k1 o r + m * (⌊(148 : ℚ) * r⌋ + 1) + 1 := by
      exact_mod_cast hq
    omega
  have hmV : (m : ℤ) * (⌊(148 : ℚ) * r⌋ + 1) ≤ (m : ℤ) * V :=
    mul_le_mul_of_nonneg_left hVfloor (by positivity)
  omega

/-- The selection loop's final count extends the initial count by the number
of selected UTXOs, and its final accumulated value extends the initial value
by their total value. -/
theorem selLoop_shape (o : ℕ) (t : ℤ) (r : ℚ) :
    ∀ (l : List Utxo) (k : ℕ) (a : ℤ),
      (selLoop o t r k a l).2.1 = k + (selLoop o t r k a l).1.length ∧
      (selLoop o t r k a l).2.2 = a + utxoValueSum (selLoop o t r k a l).1 := by
  intro l
  induction l with
  | nil =>
    intro k a
    simp [selLoop, utxoValueSum]
  | cons u rest ih =>
    intro k a
    simp only [selLoop]
    by_cases hc : t + feeSats (k + 1) o r ≤ a + (u.value : ℤ)
    · rw [if_pos hc]
      constructor
      · simp
      · simp [utxoValueSum]
    · rw [if_neg hc]
      obtain ⟨h1, h2⟩ := ih (k + 1) (a + u.value)
      constructor
      · simp only [List.length_cons]
        omega
      · simp only [utxoValueSum, List.map_cons, List.sum_cons]
        simp only [utxoValueSum] at h2
        omega

/-- When the selection loop returns, either the covering condition holds of
its final state (it broke), or it consumed the entire candidate list. -/
theorem selLoop_covered_or_exhausted (o : ℕ) (t : ℤ) (r : ℚ) :
    ∀ (l : List Utxo) (k : ℕ) (a : ℤ),
      t + feeSats (selLoop o t r k a l).2.1 o r ≤ (selLoop o t r k a l).2.2 ∨
      (selLoop o t r k a l).1 = l := by
  intro l
  induction l with
  | nil =>
    intro k a
    right
    simp [selLoop]
  | cons u rest ih =>
    intro k a
    simp only [selLoop]
    by_cases hc : t + feeSats (k + 1) o r ≤ a + (u.value : ℤ)
    · rw [if_pos hc]
      left
      simpa using hc
    · rw [if_neg hc]
      rcases ih (k + 1) (a + u.value) with h | h
      · left
        simpa using h
      · right
        simp [h]

/-- On an ascending candidate list at a rate of at least one satoshi per
byte, if the selection loop's final state satisfies the covering condition,
then the whole candidate list also covers the target plus the whole-list
fee: an early break can only happen when enough value is present overall. -/
theorem selLoop_exhaust_bound (o : ℕ) (t : ℤ) (r : ℚ) (hr : 1 ≤ r) (ht : 0 ≤ t) :
    ∀ (l : List Utxo), l.Pairwise (utxoLeAsc · ·) →
    ∀ (k : ℕ) (a : ℤ), (∀ u ∈ l, a ≤ (k : ℤ) * (u.value : ℤ)) →
    t + feeSats (selLoop o t r k a l).2.1 o r ≤ (selLoop o t r k a l).2.2 →
    t + feeSats (k + l.length) o r ≤ a + utxoValueSum l := by
  intro l
  induction l with
  | nil =>
    intro _ k a _ hfin
    simp only [selLoop] at hfin
    simpa [utxoValueSum] using hfin
  | cons u rest ih =>
    intro hp k a hinv hfin
    have hrest : ∀ x ∈ rest, (u.value : ℤ) ≤ (x.value : ℤ) := by
      intro x hx
      have hx' := (List.pairwise_cons.mp hp).1 x hx
      simp only [utxoLeAsc, decide_eq_true_eq] at hx'
      exact_mod_cast hx'
    simp only [selLoop] at hfin
    by_cases hc : t + feeSats (k + 1) o r ≤ a + (u.value : ℤ)
    · have ha : a ≤ (k : ℤ) * (u.value : ℤ) := hinv u (List.mem_cons_self u rest)
      have hbreak : t + feeSats (k + 1) o r ≤ ((k + 1 : ℕ) : ℤ) * (u.value : ℤ) := by
        push_cast
        linarith
      have hgap := feeSats_gap o r hr (k + 1) (by omega) rest.length (u.value : ℤ) t ht hbreak
      have hsum : (rest.length : ℤ) * (u.value : ℤ) ≤ utxoValueSum rest := by
        have hb : ∀ y ∈ rest.map (fun x => (x.value : ℤ)), (u.value : ℤ) ≤ y := by
          intro y hy
          obtain ⟨x, hx, rfl⟩ := List.mem_map.mp hy
          exact hrest x hx
        have hns := List.card_nsmul_le_sum (rest.map (fun x => (x.value : ℤ))) (u.value : ℤ) hb
        simpa [nsmul_eq_mul, utxoValueSum] using hns
      have hk' : k + (u :: rest).length = (k + 1) + rest.length := by
        simp
        omega
      rw [hk']
      simp only [utxoValueSum, List.map_cons, List.sum_cons]
      simp only [utxoValueSum] at hsum
      linarith
    · rw [if_neg hc] at hfin
      have hinv' : ∀ x ∈ rest, a + (u.value : ℤ) ≤ ((k + 1 : ℕ) : ℤ) * (x.value : ℤ) := by
        intro x hx
        have h1 : a ≤ (k : ℤ) * (x.value : ℤ) := hinv x (List.mem_cons_of_mem u hx)
        have h2 : (u.value : ℤ) ≤ (x.value : ℤ) := hrest x hx
        push_cast
        nlinarith
      have hfin' : t + feeSats (selLoop o t r (k + 1) (a + (u.value : ℤ)) rest).2.1 o r ≤
          (selLoop o t r (k + 1) (a + (u.value : ℤ)) rest).2.2 := by
        simpa using hfin
      have hrec := ih (List.pairwise_cons.mp hp).2 (k + 1) (a + (u.value : ℤ)) hinv' hfin'
      have hk' : k + (u :: rest).length = (k + 1) + rest.length := by
        simp
        omega
      rw [hk']
      simp only [utxoValueSum, List.map_cons, List.sum_cons]
      simp only [utxoValueSum] at hrec
      linarith

/-- Unfolding of `getNecessaryUtxosAndChange` on the default sorting path. -/
theorem getNecessaryUtxosAndChange_eq (outputs : List Output) (utxos : List Utxo) (r : ℚ) :
    getNecessaryUtxosAndChange outputs utxos r none =
      (if (selLoop outputs.length (outputAmountSum outputs) r 0 0
            (sortUtxosBySize utxos SortDirection.ascending)).2.2 -
          outputAmountSum outputs -
          feeSats (selLoop outputs.length (outputAmountSum outputs) r 0 0
            (sortUtxosBySize utxos SortDirection.ascending)).2.1 outputs.length r < 0 then
        Except.error Err.insufficientFunds
      else
        Except.ok (SelectionResult.mk
          (selLoop outputs.length (outputAmountSum outputs) r 0 0
            (sortUtxosBySize utxos SortDirection.ascending)).1
          ((selLoop outputs.length (outputAmountSum outputs) r 0 0
            (sortUtxosBySize utxos SortDirection.ascending)).2.2 -
            outputAmountSum outputs -
            feeSats (selLoop outputs.length (outputAmountSum outputs) r 0 0
              (sortUtxosBySize utxos SortDirection.ascending)).2.1 outputs.length r))) :=
  rfl

/-- C1: whenever the UTXO set's total value covers the requested amount plus
the whole-set fee, selection succeeds with a `SelectionResult` satisfying
the coverage invariant — the selected UTXOs cover amount plus fee, and the
change is exactly the selected total minus amount minus fee; whenever the
total is insufficient, selection fails with `InsufficientFunds` and returns
no partial selection. -/
theorem getNecessaryUtxosAndChange_spec (outputs : List Output) (utxos : List Utxo)
    (r : ℚ) (hr : 1 ≤ r) :
    (outputAmountSum outputs + minFee outputs utxos r ≤ utxoValueSum utxos →
      ∃ sel, getNecessaryUtxosAndChange outputs utxos r none = Except.ok sel ∧
        outputAmountSum outputs + feeSats sel.necessaryUtxos.length outputs.length r ≤
          utxoValueSum sel.necessaryUtxos ∧
        sel.change = utxoValueSum sel.necessaryUtxos - outputAmountSum outputs -
          feeSats sel.necessaryUtxos.length outputs.length r) ∧
    (utxoValueSum utxos < outputAmountSum outputs + minFee outputs utxos r →
      getNecessaryUtxosAndChange outputs utxos r none = Except.error Err.insufficientFunds) := by
  have ht : 0 ≤ outputAmountSum outputs := by
    apply List.sum_nonneg
    intro x hx
    obtain ⟨ox, hox, rfl⟩ := List.mem_map.mp hx
    positivity
  have hperm : List.Perm (sortUtxosBySize utxos SortDirection.ascending) utxos :=
    List.mergeSort_perm utxos utxoLeAsc
  have hslen : (sortUtxosBySize utxos SortDirection.ascending).length = utxos.length :=
    hperm.length_eq
  have hssum : utxoValueSum (sortUtxosBySize utxos SortDirection.ascending) =
      utxoValueSum utxos := by
    simpa [utxoValueSum] using (hperm.map (fun u => (u.value : ℤ))).sum_eq
  have hsorted : (sortUtxosBySize utxos SortDirection.ascending).Pairwise (utxoLeAsc · ·) :=
    List.sorted_mergeSort utxoLeAsc_trans utxoLeAsc_total utxos
  obtain ⟨hshape1, hshape2⟩ := selLoop_shape outputs.length (outputAmountSum outputs) r
    (sortUtxosBySize utxos SortDirection.ascending) 0 0
  rw [zero_add] at hshape1
  rw [zero_add] at hshape2
  constructor
  · intro H
    have hcov : outputAmountSum outputs +
        feeSats (selLoop outputs.length (outputAmountSum outputs) r 0 0
          (sortUtxosBySize utxos SortDirection.ascending)).2.1 outputs.length r ≤
        (selLoop outputs.length (outputAmountSum outputs) r 0 0
          (sortUtxosBySize utxos SortDirection.ascending)).2.2 := by
      rcases selLoop_covered_or_exhausted outputs.length (outputAmountSum outputs) r
        (sortUtxosBySize utxos SortDirection.ascending) 0 0 with h | h
      · exact h
      · rw [hshape1, hshape2, h, hslen, hssum]
        simpa [minFee] using H
    refine ⟨SelectionResult.mk
      (selLoop outputs.length (outputAmountSum outputs) r 0 0
        (sortUtxosBySize utxos SortDirection.ascending)).1
      ((selLoop outputs.length (outputAmountSum outputs) r 0 0
        (sortUtxosBySize utxos SortDirection.ascending)).2.2 -
        outputAmountSum outputs -
        feeSats (selLoop outputs.length (outputAmountSum outputs) r 0 0
          (sortUtxosBySize utxos SortDirection.ascending)).2.1 outputs.length r), ?_, ?_, ?_⟩
    · rw [getNecessaryUtxosAndChange_eq]
      rw [if_neg (by omega)]
    · simp only
      rw [← hshape1, ← hshape2]
      exact hcov
    · simp only
      rw [← hshape1, ← hshape2]
  · intro H
    rw [getNecessaryUtxosAndChange_eq]
    rw [if_pos]
    by_contra hq
    push_neg at hq
    have hfin : outputAmountSum outputs +
        feeSats (selLoop outputs.length (outputAmountSum outputs) r 0 0
          (sortUtxosBySize utxos SortDirection.ascending)).2.1 outputs.length r ≤
        (selLoop outputs.length (outputAmountSum outputs) r 0 0
          (sortUtxosBySize utxos SortDirection.ascending)).2.2 := by
      omega
    have hb := selLoop_exhaust_bound outputs.length (outputAmountSum outputs) r hr ht
      (sortUtxosBySize utxos SortDirection.ascending) hsorted 0 0
      (by intro u hu; simp) hfin
    rw [hslen, hssum] at hb
    simp only [zero_add, minFee] at hb H
    omega

/-- C1 witness: the coverage invariant realized on the sample data (total
3000 satoshis against 600 requested plus a 374-satoshi whole-set fee). -/
theorem getNecessaryUtxosAndChange_spec_witness :
    ∃ sel, getNecessaryUtxosAndChange outsEx utxosEx 1 none = Except.ok sel ∧
      outputAmountSum outsEx + feeSats sel.necessaryUtxos.length outsEx.length 1 ≤
        utxoValueSum sel.necessaryUtxos ∧
      sel.change = utxoValueSum sel.necessaryUtxos - outputAmountSum outsEx -
        feeSats sel.necessaryUtxos.length outsEx.length 1 :=
  (getNecessaryUtxosAndChange_spec outsEx utxosEx 1 (by norm_num)).1
    (by norm_num [outputAmountSum, minFee, feeSats_one, getByteCount, utxoValueSum,
      outsEx, utxosEx])

/-! ### Stable sorting (claim C9) -/

/-- A stable merge sort leaves the subsequence of elements at any fixed
value in its original order. -/
theorem filter_value_mergeSort (le : Utxo → Utxo → Bool)
    (htrans : ∀ a b c : Utxo, le a b → le b c → le a c)
    (htotal : ∀ a b : Utxo, le a b || le b a)
    (hval : ∀ a b : Utxo, a.value = b.value → le a b)
    (u : List Utxo) (v : ℕ) :
    (u.mergeSort le).filter (fun x => x.value == v) =
      u.filter (fun x => x.value == v) := by
  have hmemv : ∀ x ∈ u.filter (fun x => x.value == v), x.value = v := by
    intro x hx
    simpa using (List.mem_filter.mp hx).2
  have hpair : (u.filter (fun x => x.value == v)).Pairwise (le · ·) :=
    List.pairwise_of_forall_mem_list
      (fun a ha b hb => hval a b (by rw [hmemv a ha, hmemv b hb]))
  have h1 : List.Sublist (u.filter (fun x => x.value == v)) (u.mergeSort le) :=
    List.sublist_mergeSort htrans htotal hpair (List.filter_sublist u)
  have h2 : (u.filter (fun x => x.value == v)).filter (fun x => x.value == v) =
      u.filter (fun x => x.value == v) :=
    List.filter_eq_self.mpr (fun a ha => (List.mem_filter.mp ha).2)
  have h3 : List.Sublist (u.filter (fun x => x.value == v))
      ((u.mergeSort le).filter (fun x => x.value == v)) := by
    have hf := h1.filter (fun x => x.value == v)
    rwa [h2] at hf
  have h4 : ((u.mergeSort le).filter (fun x => x.value == v)).length =
      (u.filter (fun x => x.value == v)).length :=
    ((List.mergeSort_perm u le).filter (fun x => x.value == v)).length_eq
  exact (h3.eq_of_length h4.symm).symm

/-- In a list that is pairwise ordered by a reflexive comparator, the head
is related to the last element. -/
theorem head_rel_getLast {le : Utxo → Utxo → Bool} (hrefl : ∀ a, le a a)
    {l : List Utxo} (hp : l.Pairwise (le · ·)) (h : l ≠ []) :
    le (l.head h) (l.getLast h) := by
  cases l with
  | nil => exact absurd rfl h
  | cons a t =>
    rw [List.head_cons]
    rcases List.mem_cons.mp (List.getLast_mem h) with he | ht
    · rw [he]
      exact hrefl a
    · exact (List.pairwise_cons.mp hp).1 _ ht

/-- C9: `sortUtxosBySize` is a stable sort by `value` in both directions
(the subsequence of any fixed value is preserved in its original relative
order), is idempotent, leaves its direction to `ASCENDING` by default, and
orders the result so that ascending output ends at a value at least its
first, while descending output starts at a value at least its last. -/
theorem sortUtxosBySize_stable_sort (u : List Utxo) (v : ℕ) :
    ((sortUtxosBySize u SortDirection.ascending).filter (fun x => x.value == v) =
      u.filter (fun x => x.value == v)) ∧
    ((sortUtxosBySize u SortDirection.descending).filter (fun x => x.value == v) =
      u.filter (fun x => x.value == v)) ∧
    (∀ d, sortUtxosBySize (sortUtxosBySize u d) d = sortUtxosBySize u d) ∧
    (sortUtxosBySizeDefault u = sortUtxosBySize u SortDirection.ascending) ∧
    (∀ h : sortUtxosBySizeDefault u ≠ [],
      ((sortUtxosBySizeDefault u).head h).value ≤
        ((sortUtxosBySizeDefault u).getLast h).value) ∧
    (∀ h : sortUtxosBySize u SortDirection.descending ≠ [],
      ((sortUtxosBySize u SortDirection.descending).getLast h).value ≤
        ((sortUtxosBySize u SortDirection.descending).head h).value) := by
  refine ⟨?_, ?_, ?_, rfl, ?_, ?_⟩
  · exact filter_value_mergeSort utxoLeAsc utxoLeAsc_trans utxoLeAsc_total
      (fun a b hab => by simp [utxoLeAsc]; omega) u v
  · exact filter_value_mergeSort utxoLeDesc utxoLeDesc_trans utxoLeDesc_total
      (fun a b hab => by simp [utxoLeDesc]; omega) u v
  · intro d
    cases d with
    | ascending =>
      exact List.mergeSort_of_sorted
        (List.sorted_mergeSort utxoLeAsc_trans utxoLeAsc_total u)
    | descending =>
      exact List.mergeSort_of_sorted
        (List.sorted_mergeSort utxoLeDesc_trans utxoLeDesc_total u)
  · intro h
    have hle := @head_rel_getLast utxoLeAsc (fun a => by simp [utxoLeAsc]) _
      (List.sorted_mergeSort utxoLeAsc_trans utxoLeAsc_total u) h
    simpa [utxoLeAsc] using hle
  · intro h
    have hle := @head_rel_getLast utxoLeDesc (fun a => by simp [utxoLeDesc]) _
      (List.sorted_mergeSort utxoLeDesc_trans utxoLeDesc_total u) h
    simpa [utxoLeDesc] using hle

/-- C9 witness: stability, idempotence and the endpoint ordering on the
sample UTXO list. -/
theorem sortUtxosBySize_stable_sort_witness :
    ((sortUtxosBySize utxosEx SortDirection.ascending).filter (fun x => x.value == 1000) =
      utxosEx.filter (fun x => x.value == 1000)) ∧
    (sortUtxosBySize (sortUtxosBySize utxosEx SortDirection.descending)
      SortDirection.descending = sortUtxosBySize utxosEx SortDirection.descending) ∧
    (∀ h : sortUtxosBySizeDefault utxosEx ≠ [],
      ((sortUtxosBySizeDefault utxosEx).head h).value ≤
        ((sortUtxosBySizeDefault utxosEx).getLast h).value) :=
  ⟨(sortUtxosBySize_stable_sort utxosEx 1000).1,
    (sortUtxosBySize_stable_sort utxosEx 1000).2.2.1 SortDirection.descending,
    (sortUtxosBySize_stable_sort utxosEx 1000).2.2.2.2.1⟩

/-! ### Transaction building (claims C2, C3) -/

/-- C2: a transaction built by `createTransaction` carries exactly
`outputs.length + 1` outputs when the raw change computed by selection is
strictly above the dust threshold (the extra one paying change to the
wallet's own address), and exactly `outputs.length` outputs when the change
is at or below dust (the change being absorbed into the fee). -/
theorem createTransaction_output_count (outputs : List Output) (wallet : WalletInfo)
    (utxos : List Utxo) (r : ℚ) (tx : Tx) (sel : SelectionResult)
    (htx : createTransaction outputs wallet utxos r = Except.ok tx)
    (hsel : getNecessaryUtxosAndChange outputs utxos r none = Except.ok sel) :
    ((dustThreshold : ℤ) < sel.change → tx.txOuts.length = outputs.length + 1) ∧
    (sel.change ≤ (dustThreshold : ℤ) → tx.txOuts.length = outputs.length) := by
  rw [createTransaction] at htx
  by_cases he : utxos.isEmpty = true
  · rw [if_pos he] at htx
    cases htx
  · rw [if_neg he] at htx
    cases hn : normalizeOutputs outputs with
    | error e =>
      rw [hn] at htx
      cases htx
    | ok nouts =>
      rw [hn, hsel] at htx
      cases hk : getKeyPairFromMnemonic wallet with
      | error e =>
        rw [hk] at htx
        cases htx
      | ok kp =>
        rw [hk] at htx
        cases htx
        constructor
        · intro hd
          simp [if_pos hd, normalizeOutputs_length hn]
        · intro hd
          simp [if_neg (not_lt.mpr hd), normalizeOutputs_length hn]

/-- Evaluation: on the sample data the selector keeps the single 1000-sat
input and reports change `1000 - 600 - 226 = 174`, below dust. -/
theorem getNecessary_eval_ex :
    getNecessaryUtxosAndChange outsEx utxosEx 1 none =
      Except.ok (SelectionResult.mk [Utxo.mk "aa00" 0 1000] 174) := by
  have hs : sortUtxosBySize utxosEx SortDirection.ascending = utxosEx :=
    sortUtxosBySize_of_ascending (by decide)
  simp only [getNecessaryUtxosAndChange, hs]
  norm_num [selLoop, outsEx, utxosEx, outputAmountSum, feeSats_one, getByteCount]

/-- Evaluation: on the second sample the selector keeps the 2000-sat input
and reports change `2000 - 600 - 226 = 1174`, above dust. -/
theorem getNecessary_eval_ex2 :
    getNecessaryUtxosAndChange outsEx utxosEx2 1 none =
      Except.ok (SelectionResult.mk [Utxo.mk "cc22" 0 2000] 1174) := by
  have hs : sortUtxosBySize utxosEx2 SortDirection.ascending = utxosEx2 :=
    sortUtxosBySize_of_ascending (by decide)
  simp only [getNecessaryUtxosAndChange, hs]
  norm_num [selLoop, outsEx, utxosEx2, outputAmountSum, feeSats_one, getByteCount]

/-- Evaluation: the built sample transaction with below-dust change has one
output. -/
theorem createTransaction_eval_ex :
    createTransaction outsEx walletEx utxosEx 1 =
      Except.ok (Tx.mk [Utxo.mk "aa00" 0 1000]
        [TxOut.mk "bitcoincash:qp2rmj8heytjrksxm2xrjs0hncnvl08xwgkweawu9h" 600]) := by
  rw [createTransaction, if_neg (by decide),
    show normalizeOutputs outsEx =
      Except.ok [TxOut.mk "bitcoincash:qp2rmj8heytjrksxm2xrjs0hncnvl08xwgkweawu9h" 600]
      from by decide,
    getNecessary_eval_ex]
  norm_num [getKeyPairFromMnemonic, walletEx, dustThreshold]

/-- Evaluation: the built second sample transaction with above-dust change
has two outputs, the second paying the change to the wallet's address. -/
theorem createTransaction_eval_ex2 :
    createTransaction outsEx walletEx utxosEx2 1 =
      Except.ok (Tx.mk [Utxo.mk "cc22" 0 2000]
        [TxOut.mk "bitcoincash:qp2rmj8heytjrksxm2xrjs0hncnvl08xwgkweawu9h" 600,
          TxOut.mk "bitcoincash:qqxv68xtmlascjyehdy92gjph5xgxa00sq6gmttzrl" 1174]) := by
  rw [createTransaction, if_neg (by decide),
    show normalizeOutputs outsEx =
      Except.ok [TxOut.mk "bitcoincash:qp2rmj8heytjrksxm2xrjs0hncnvl08xwgkweawu9h" 600]
      from by decide,
    getNecessary_eval_ex2]
  norm_num [getKeyPairFromMnemonic, walletEx, dustThreshold]

/-- C2 witness: the output-count dichotomy applied to the two built sample
transactions (below-dust change keeps one output, above-dust change appends
the change output). -/
theorem createTransaction_output_count_witness :
    ((dustThreshold : ℤ) < (174 : ℤ) →
      (Tx.mk [Utxo.mk "aa00" 0 1000]
        [TxOut.mk "bitcoincash:qp2rmj8heytjrksxm2xrjs0hncnvl08xwgkweawu9h" 600]).txOuts.length =
        outsEx.length + 1) ∧
    ((174 : ℤ) ≤ (dustThreshold : ℤ) →
      (Tx.mk [Utxo.mk "aa00" 0 1000]
        [TxOut.mk "bitcoincash:qp2rmj8heytjrksxm2xrjs0hncnvl08xwgkweawu9h" 600]).txOuts.length =
        outsEx.length) :=
  createTransaction_output_count outsEx walletEx utxosEx 1 _ (SelectionResult.mk _ 174)
    createTransaction_eval_ex getNecessary_eval_ex

/-- C3: for a supported address, resolvable signing material and a non-empty
UTXO set, `createSendAllTx` builds a transaction spending every supplied
UTXO with exactly one output paying `sum(utxo.value) - fee(len(utxos), 1,
rate)` — never a change output — and its default fee rate is 1 satoshi per
byte. -/
theorem createSendAllTx_sweep (s : String) (wallet : WalletInfo) (utxos : List Utxo)
    (r : ℚ) (hs : isSupportedAddress s = true)
    (hk : ∃ kp, getKeyPairFromMnemonic wallet = Except.ok kp) (hu : utxos ≠ []) :
    createSendAllTx (JsVal.str s) wallet utxos r =
      Except.ok (Tx.mk utxos
        [TxOut.mk s (utxoValueSum utxos - feeSats utxos.length 1 r)]) ∧
    createSendAllTxDefaultRate (JsVal.str s) wallet utxos =
      createSendAllTx (JsVal.str s) wallet utxos 1 := by
  obtain ⟨kp, hkp⟩ := hk
  refine ⟨?_, rfl⟩
  rw [createSendAllTx, normalizeAddress, if_pos hs]
  rw [show utxos.isEmpty = false from by simpa [List.isEmpty_iff] using hu]
  rw [hkp]
  rfl

/-- C3 witness: the sweep applied to the sample wallet and UTXO set at the
default rate. -/
theorem createSendAllTx_sweep_witness :
    createSendAllTx (JsVal.str "bitcoincash:qp2rmj8heytjrksxm2xrjs0hncnvl08xwgkweawu9h")
      walletEx utxosEx 1 =
      Except.ok (Tx.mk utxosEx
        [TxOut.mk "bitcoincash:qp2rmj8heytjrksxm2xrjs0hncnvl08xwgkweawu9h"
          (utxoValueSum utxosEx - feeSats utxosEx.length 1 1)]) ∧
    createSendAllTxDefaultRate
      (JsVal.str "bitcoincash:qp2rmj8heytjrksxm2xrjs0hncnvl08xwgkweawu9h") walletEx utxosEx =
      createSendAllTx (JsVal.str "bitcoincash:qp2rmj8heytjrksxm2xrjs0hncnvl08xwgkweawu9h")
        walletEx utxosEx 1 :=
  createSendAllTx_sweep _ walletEx utxosEx 1 (by decide) ⟨_, rfl⟩ (by decide)

/-! ### Broadcast hand-off (claim C8) -/

/-- C8: `sendBch` (resp. `sendAllBch`) first builds the transaction, then
returns exactly what the adapter's broadcast operation returns on the
serialized hex — so adapter failures are propagated unchanged, with no retry
and no other result at this layer — and any builder failure is likewise
surfaced as-is. -/
theorem sendBch_broadcast_passthrough (ar : AdapterRouter) (outputs : List Output)
    (toAddress : JsVal) (wallet : WalletInfo) (utxos : List Utxo) (r : ℚ) :
    (∀ tx, createTransaction outputs wallet utxos r = Except.ok tx →
      sendBch ar outputs wallet utxos r = ar.sendTx (serializeTx tx)) ∧
    (∀ e, createTransaction outputs wallet utxos r = Except.error e →
      sendBch ar outputs wallet utxos r = Except.error e) ∧
    (∀ tx, createSendAllTx toAddress wallet utxos r = Except.ok tx →
      sendAllBch ar toAddress wallet utxos r = ar.sendTx (serializeTx tx)) ∧
    (∀ e, createSendAllTx toAddress wallet utxos r = Except.error e →
      sendAllBch ar toAddress wallet utxos r = Except.error e) := by
  refine ⟨fun tx h => ?_, fun e h => ?_, fun tx h => ?_, fun e h => ?_⟩ <;>
    simp [sendBch, sendAllBch, h]

/-- C8 witness: a rejecting adapter's failure comes back from `sendBch`
exactly as the adapter produced it on the serialized sample transaction, and
a builder failure passes through `sendAllBch` unchanged. -/
theorem sendBch_broadcast_passthrough_witness :
    sendBch arEx outsEx walletEx utxosEx 1 =
      arEx.sendTx (serializeTx (Tx.mk [Utxo.mk "aa00" 0 1000]
        [TxOut.mk "bitcoincash:qp2rmj8heytjrksxm2xrjs0hncnvl08xwgkweawu9h" 600])) ∧
    sendAllBch arEx (JsVal.num 1) walletEx utxosEx 1 = Except.error Err.invalidAddress :=
  ⟨(sendBch_broadcast_passthrough arEx outsEx (JsVal.num 1) walletEx utxosEx 1).1 _
      createTransaction_eval_ex,
    (sendBch_broadcast_passthrough arEx outsEx (JsVal.num 1) walletEx utxosEx 1).2.2.2
      Err.invalidAddress rfl⟩

/-! ### Constructor guards (claim C10) -/

/-- C10: constructing the SendBCH component without a bch-js instance fails
with the bch-js guard message; with bch-js but without an Adapter Router it
fails with the router guard message; and every successfully constructed
component holds both collaborators. -/
theorem mkSendBCH_guards :
    (∀ ar, mkSendBCH none ar =
      Except.error "Must pass instance of bch-js when instantiating SendBCH.") ∧
    (∀ b, mkSendBCH (some b) none =
      Except.error "Must pass instance of Adapter Router.") ∧
    (∀ b a s, mkSendBCH b a = Except.ok s → b = some s.bchjs ∧ a = some s.ar) := by
  refine ⟨fun ar => rfl, fun b => rfl, fun b a s h => ?_⟩
  match b, a with
  | none, a => exact absurd h (by simp [mkSendBCH])
  | some b', none => exact absurd h (by simp [mkSendBCH])
  | some b', some a' =>
    rw [mkSendBCH] at h
    cases h
    exact ⟨rfl, rfl⟩

/-- C10 witness: a component built from both collaborators records exactly
those collaborators. -/
theorem mkSendBCH_guards_witness :
    some (BchJs.mk "https://api.fullstack.cash/v5/") =
      some (SendBCH.mk (BchJs.mk "https://api.fullstack.cash/v5/")
        (AdapterRouter.mk (fun _ => Except.ok "txid"))).bchjs ∧
    some (AdapterRouter.mk (fun _ => Except.ok "txid")) =
      some (SendBCH.mk (BchJs.mk "https://api.fullstack.cash/v5/")
        (AdapterRouter.mk (fun _ => Except.ok "txid"))).ar :=
  mkSendBCH_guards.2.2 _ _ _ rfl

end Wallet
